import Mathlib

/-!
Verification of the shared-resource coordination layer of the gomcp
repository: the cross-process tab pool (`targetStore`), the persistent
CDP endpoint cache (`cdpEndpointStore`), the endpoint resolver
(`resolveCDPEndpoint` / `fetchWebsocketDebuggerURL`), the in-process
session registry (`Sessions`), and the temp-file-then-rename persistence
discipline shared by both stores.

The Go code is embedded shallowly: the persisted JSON files become
`Option` values (absent file versus decoded content), maps become
association lists with Go map semantics, and the network probe becomes an
explicit outcome parameter.  Go standard-library helpers used by the code
(`strings.TrimSpace`, `sort.Strings`, `strings.Contains`,
`net/url.Parse`, `net.SplitHostPort`, `net.JoinHostPort`) are modelled by
executable Lean functions on `List Char`, faithful to their documented
behaviour on the URL and identifier shapes this program handles.
-/

/- ### String helpers (models of Go standard-library functions) -/

/-- Models Go `unicode.IsSpace` restricted to the ASCII whitespace that
identifiers in this program can carry. -/
def isWS (c : Char) : Bool := c.isWhitespace

/-- Drop leading and trailing whitespace from a character list. -/
def trimChars (l : List Char) : List Char :=
  ((l.dropWhile isWS).reverse.dropWhile isWS).reverse

/-- Models Go `strings.TrimSpace`. -/
def strTrim (s : String) : String := ⟨trimChars s.data⟩

/-- Byte/code-point comparison of characters (UTF-8 byte order and
code-point order coincide). -/
def charLt (a b : Char) : Bool := a.val.toNat < b.val.toNat

/-- Lexicographic comparison of character lists; models the order used by
Go `sort.Strings` (byte-wise lexicographic). -/
def listLexLeb : List Char → List Char → Bool
  | [], _ => true
  | _ :: _, [] => false
  | a :: as, b :: bs =>
    if charLt a b then true
    else if charLt b a then false
    else listLexLeb as bs

/-- Boolean string comparison, Go `a <= b` on strings. -/
def strLeb (a b : String) : Bool := listLexLeb a.data b.data

/-- Propositional form of `strLeb`. -/
def strLe (a b : String) : Prop := strLeb a b = true

instance : DecidableRel strLe :=
  fun a b => inferInstanceAs (Decidable (strLeb a b = true))

/-- Drop the prefix `pat` from a list, or fail. -/
def dropPre : List Char → List Char → Option (List Char)
  | [], l => some l
  | _ :: _, [] => none
  | a :: as, b :: bs => if a = b then dropPre as bs else none

/-- Split a list at the first occurrence of the pattern `pat`, returning
the part before and the part after. -/
def breakOnSub (pat : List Char) : List Char → Option (List Char × List Char)
  | [] =>
    match dropPre pat [] with
    | some rest => some ([], rest)
    | none => none
  | c :: cs =>
    match dropPre pat (c :: cs) with
    | some rest => some ([], rest)
    | none =>
      match breakOnSub pat cs with
      | some (pre, post) => some (c :: pre, post)
      | none => none

/-- Models Go `strings.Contains`. -/
def strContains (s sub : String) : Bool := (breakOnSub sub.data s.data).isSome

/- ### Tab pool (`targetStore`, src/unnamed/part_002) -/

/-- Models Go `sort.Strings`: sort ascending lexicographically. -/
def sortStrings (l : List String) : List String := l.insertionSort strLe

/-- The trim / skip-empty / skip-seen loop of `targetState.compact`,
carrying the set of already-emitted identifiers. -/
def compactLoop (seen : List String) : List String → List String
  | [] => []
  | id :: rest =>
    if strTrim id = "" then compactLoop seen rest
    else if strTrim id ∈ seen then compactLoop seen rest
    else strTrim id :: compactLoop (strTrim id :: seen) rest

/-- `targetState.compact`: trim each id, drop empties, de-duplicate
keeping first occurrences, then sort. -/
def targetState.compact (idle : List String) : List String :=
  if idle.isEmpty then idle
  else sortStrings (compactLoop [] idle)

/-- The persisted tab-pool file: `none` when the state file is absent,
`some l` when it holds the decoded JSON `{"idle": l}`. -/
abbrev TabFile := Option (List String)

/-- `targetStore.read`: absent file is an empty pool; otherwise decode
and compact. -/
def targetStore.read (file : TabFile) : List String :=
  match file with
  | none => []
  | some l => targetState.compact l

/-- `targetStore.Checkin`: no-op on empty id, no-op (no write) when the
id is already idle, otherwise append, compact and persist. -/
def targetStore.Checkin (id : String) (file : TabFile) : TabFile :=
  if id = "" then file
  else if id ∈ targetStore.read file then file
  else some (targetState.compact (targetStore.read file ++ [id]))

/-- `targetStore.Checkout`: return `""` leaving the file untouched when
the pool is empty, otherwise remove and return the first idle id and
persist the rest. -/
def targetStore.Checkout (file : TabFile) : String × TabFile :=
  match targetStore.read file with
  | [] => ("", file)
  | id :: rest => (id, some rest)

/-- `targetStore.Clear`: delete the persisted pool state. -/
def targetStore.Clear (_file : TabFile) : TabFile := none

/-- A finite sequence of `Checkin` calls applied in order. -/
def applyCheckins (calls : List String) (file : TabFile) : TabFile :=
  match calls with
  | [] => file
  | id :: rest => applyCheckins rest (targetStore.Checkin id file)

example : strTrim " t1 " = "t1" := by decide
example : targetState.compact ["t2", "t1", "t1"] = ["t1", "t2"] := by decide
example : targetStore.Checkout (some ["t2", "t1", "t1"]) = ("t1", some ["t2"]) := by decide
example : targetStore.Checkin "t1" (some ["t1", "t1"]) = some ["t1", "t1"] := by decide
example : targetStore.Checkin "t3" (some ["t1"]) = some ["t1", "t3"] := by decide

/- ### Endpoint cache (`cdpEndpointStore`, src/unnamed/part_000) -/

/-- Go map lookup `m[k]` on the association-list model of
`map[string]string`. -/
def mapGet : List (String × String) → String → Option String
  | [], _ => none
  | (k, v) :: rest, key => if k = key then some v else mapGet rest key

/-- Go map assignment `m[k] = v` on the association-list model. -/
def mapSet : List (String × String) → String → String → List (String × String)
  | [], key, val => [(key, val)]
  | (k, v) :: rest, key, val =>
    if k = key then (k, val) :: rest else (k, v) :: mapSet rest key val

/-- The persisted endpoint-cache file: `none` when absent or empty,
`some m` when it holds the decoded JSON `{"entries": m}`. -/
abbrev CacheFile := Option (List (String × String))

/-- `cdpEndpointStore.read`: a missing or empty file is an empty cache. -/
def cdpEndpointStore.read (file : CacheFile) : List (String × String) :=
  match file with
  | none => []
  | some m => m

/-- `cdpEndpointStore.Get` on a store whose nil-ness is `snil`: returns
`("", false)` on a nil store, else the map lookup with its ok flag. -/
def cdpEndpointStore.Get (snil : Bool) (host : String) (file : CacheFile) :
    String × Bool :=
  if snil then ("", false)
  else
    match mapGet (cdpEndpointStore.read file) host with
    | some v => (v, true)
    | none => ("", false)

/-- `cdpEndpointStore.Remember`: early return (no read, no write) when
the store is nil or either argument is empty; otherwise read, upsert,
write. -/
def cdpEndpointStore.Remember (snil : Bool) (host wsURL : String)
    (file : CacheFile) : CacheFile :=
  if snil ∨ host = "" ∨ wsURL = "" then file
  else some (mapSet (cdpEndpointStore.read file) host wsURL)

/- ### Endpoint resolution (`resolveCDPEndpoint`, src/unnamed/part_000) -/

/-- The parts of a parsed URL that `resolveCDPEndpoint` inspects.
Models `net/url.URL` restricted to `scheme://host[/path]` addresses
(no userinfo, query or fragment — the forms this program handles). -/
structure GoURL where
  scheme : String
  host : String
  path : String
deriving DecidableEq

/-- Models `net/url.URL.String` on the restricted fragment. -/
def GoURL.toStr (u : GoURL) : String := u.scheme ++ "://" ++ u.host ++ u.path

/-- Models `net/url.Parse` on the restricted fragment: scheme is what
precedes the first "://", host runs to the first '/', path is the rest.
Inputs without "://" are outside the fragment (resolution only parses
strings that contain it). -/
def parseURL (s : String) : Option GoURL :=
  match breakOnSub "://".data s.data with
  | none => none
  | some (scheme, rest) =>
    some ⟨⟨scheme⟩, ⟨rest.takeWhile (· != '/')⟩, ⟨rest.dropWhile (· != '/')⟩⟩

/-- Models success of `net.SplitHostPort`: a bracketed IPv6 form needs
"]:", a plain form needs exactly one ':'. -/
def splitHostPortOk (hostport : String) : Bool :=
  if hostport.data.contains '[' then strContains hostport "]:"
  else hostport.data.count ':' == 1

/-- Models `net.JoinHostPort`. -/
def joinHostPort (host port : String) : String :=
  if host.data.contains ':' then "[" ++ host ++ "]:" ++ port
  else host ++ ":" ++ port

/-- Lines 101–107 of the resolver: substitute the local default for an
empty address and prefix "ws://" when no scheme separator is present. -/
def normAddr (raw : String) : String :=
  let norm := if raw = "" then "ws://127.0.0.1:9222" else raw
  if strContains norm "://" then norm else "ws://" ++ norm

/-- Lines 115–119 of the resolver: append the default port 9222 when the
host has none, and return the host key. -/
def normHostPort (u : GoURL) : GoURL × String :=
  if splitHostPortOk u.host then (u, u.host)
  else
    let h := joinHostPort u.host "9222"
    ({ u with host := h }, h)

/-- Full normalization prefix of `resolveCDPEndpoint` (lines 100–119):
`none` models the error returns for an unparsable URL or an empty host. -/
def normalizeCDP (raw : String) : Option (GoURL × String) :=
  match parseURL (normAddr raw) with
  | none => none
  | some u => if u.host = "" then none else some (normHostPort u)

/-- Outcome of the `/json/version` HTTP probe, as seen by
`fetchWebsocketDebuggerURL`: a transport error, or a response with a
status code and the decoded `webSocketDebuggerUrl` field (`none` models
an undecodable body, `some ""` a missing field). -/
inductive HTTPOutcome where
  | reqError : HTTPOutcome
  | response (status : Nat) (ws : Option String) : HTTPOutcome
deriving DecidableEq

/-- `fetchWebsocketDebuggerURL` (lines 142–172): fails on a request
error, a non-200 status, an undecodable body, or an empty
`webSocketDebuggerUrl`; otherwise returns the advertised URL. -/
def fetchWebsocketDebuggerURL (outcome : HTTPOutcome) : Except Unit String :=
  match outcome with
  | .reqError => .error ()
  | .response status ws =>
    if status ≠ 200 then .error ()
    else
      match ws with
      | none => .error ()
      | some w => if w = "" then .error () else .ok w

/-- Scheme selection for the probe (lines 143–146). -/
def probeScheme (scheme : String) : String :=
  if scheme = "https" ∨ scheme = "wss" then "https" else "http"

/-- What `resolveCDPEndpoint` returns and leaves behind: the URL and
host-key results, whether the returned error was non-nil, and the
persisted cache file afterwards. -/
structure ResolveOut where
  url : String
  host : String
  isErr : Bool
  cache : CacheFile
deriving DecidableEq

/-- `resolveCDPEndpoint` (lines 100–140), with the probe outcome passed
explicitly: normalize; short-circuit on a "/devtools/browser/" path;
else consult the cache; else probe and remember the result. -/
def resolveCDPEndpoint (raw : String) (storeNil : Bool) (cacheFile : CacheFile)
    (probe : HTTPOutcome) : ResolveOut :=
  match normalizeCDP raw with
  | none => ⟨"", "", true, cacheFile⟩
  | some (u, host) =>
    if strContains u.path "/devtools/browser/" then
      ⟨u.toStr, host, false, cacheFile⟩
    else
      let cached := if storeNil then none
                    else mapGet (cdpEndpointStore.read cacheFile) host
      match cached with
      | some c => ⟨c, host, false, cacheFile⟩
      | none =>
        match fetchWebsocketDebuggerURL probe with
        | .error _ => ⟨u.toStr, host, true, cacheFile⟩
        | .ok ws => ⟨ws, host, false,
            cdpEndpointStore.Remember storeNil host ws cacheFile⟩

example : normalizeCDP "127.0.0.1" =
    some (⟨"ws", "127.0.0.1:9222", ""⟩, "127.0.0.1:9222") := by decide
example : normalizeCDP "ws://127.0.0.1:9222/devtools/browser/abc" =
    some (⟨"ws", "127.0.0.1:9222", "/devtools/browser/abc"⟩, "127.0.0.1:9222") := by
  decide
example : resolveCDPEndpoint "127.0.0.1" false none .reqError =
    ⟨"ws://127.0.0.1:9222", "127.0.0.1:9222", true, none⟩ := by decide
example : resolveCDPEndpoint "127.0.0.1" false none
    (.response 200 (some "ws://127.0.0.1:9222/devtools/browser/abc")) =
    ⟨"ws://127.0.0.1:9222/devtools/browser/abc", "127.0.0.1:9222", false,
      some [("127.0.0.1:9222", "ws://127.0.0.1:9222/devtools/browser/abc")]⟩ := by
  decide

/- ### Session registry (`Sessions` / `Session`, src/main.go) -/

/-- Session identifiers: models `SessionId` (a UUID) as an opaque type
with decidable equality. -/
abbrev SessionId := Nat

/-- The registry-visible part of a `Session`: its id and creation time.
The request channel's open/closed state lives in `SessionsWorld`. -/
structure Session where
  id : SessionId
  createdAt : Nat
deriving DecidableEq

/-- The registry (`map[SessionId]*Session`) together with the per-session
flag recording whether `close(s.creq)` has run — so that closing a
channel and removing a registry entry are distinct effects. -/
structure SessionsWorld where
  table : SessionId → Option Session
  creqClosed : SessionId → Bool

/-- `Sessions.Add`: register (or silently overwrite) under `s.id`. -/
def Sessions.Add (w : SessionsWorld) (s : Session) : SessionsWorld :=
  { w with table := fun i => if i = s.id then some s else w.table i }

/-- `Sessions.Get`: lookup, with the map's ok flag. -/
def Sessions.Get (w : SessionsWorld) (id : SessionId) : Option Session × Bool :=
  (w.table id, (w.table id).isSome)

/-- `Sessions.Remove`: delete the entry; touches nothing else. -/
def Sessions.Remove (w : SessionsWorld) (id : SessionId) : SessionsWorld :=
  { w with table := fun i => if i = id then none else w.table i }

/-- `Session.Close`: close the session's request channel. -/
def Session.Close (w : SessionsWorld) (s : Session) : SessionsWorld :=
  { w with creqClosed := fun i => if i = s.id then true else w.creqClosed i }

/- ### Atomic persistence (write-to-temp-then-rename, both stores) -/

/-- The two file paths a store's `write` touches. -/
inductive FsPath where
  | dest : FsPath
  | tmp : FsPath
deriving DecidableEq

/-- The file operations `write` performs. -/
inductive FileInstr where
  | writeFile (target : FsPath) (data : String) : FileInstr
  | rename (src dst : FsPath) : FileInstr

/-- Contents of the two paths (`none` = file absent). -/
def FsState := FsPath → Option String

/-- Update one path's contents. -/
def FsState.set (fs : FsState) (p : FsPath) (v : Option String) : FsState :=
  fun q => if q = p then v else fs q

/-- Effect of one completed instruction.  Modelled from the spec: a
completed `WriteFile` replaces the target's contents; `Rename`
atomically moves the source's contents over the destination. -/
def runInstr (i : FileInstr) (fs : FsState) : FsState :=
  match i with
  | .writeFile p d => fs.set p (some d)
  | .rename src dst => (fs.set dst (fs src)).set src none

/-- `cdpEndpointStore.write` (lines 88–98): write the full encoding to
the temporary path, then rename it over the destination. -/
def cdpEndpointStore.write (data : String) : List FileInstr :=
  [.writeFile .tmp data, .rename .tmp .dest]

/-- `targetStore.write` (lines 133–143): identical discipline. -/
def targetStore.write (data : String) : List FileInstr :=
  [.writeFile .tmp data, .rename .tmp .dest]

/-- Crash-interruptible execution.  Modelled from the spec's crash
model: the process may stop before any instruction; an interrupted
`WriteFile` leaves arbitrary content at its target path only; `Rename`
is atomic, so it either fully happens or not at all. -/
inductive crashRun : List FileInstr → FsState → FsState → Prop
  | stop (prog : List FileInstr) (fs : FsState) : crashRun prog fs fs
  | interruptWrite (p : FsPath) (d : String) (rest : List FileInstr)
      (fs : FsState) (junk : Option String) :
      crashRun (.writeFile p d :: rest) fs (fs.set p junk)
  | step (i : FileInstr) (rest : List FileInstr) (fs out : FsState) :
      crashRun rest (runInstr i fs) out → crashRun (i :: rest) fs out

/-- A filesystem with an old destination file and no temp file. -/
def oldFs : FsState :=
  fun p => match p with
  | .dest => some "old"
  | .tmp => none

/- ### Lemmas: the lexicographic order -/

theorem listLexLeb_refl : ∀ l : List Char, listLexLeb l l = true
  | [] => rfl
  | a :: as => by
    simp [listLexLeb, charLt, listLexLeb_refl as]

theorem strLe_refl (s : String) : strLe s s := listLexLeb_refl s.data

theorem listLexLeb_total : ∀ a b : List Char,
    listLexLeb a b = true ∨ listLexLeb b a = true
  | [], _ => Or.inl rfl
  | _ :: _, [] => Or.inr rfl
  | a :: as, b :: bs => by
    rcases Nat.lt_trichotomy a.val.toNat b.val.toNat with h | h | h
    · left; simp [listLexLeb, charLt, h]
    · rcases listLexLeb_total as bs with ih | ih
      · left; simp [listLexLeb, charLt, h, Nat.lt_irrefl, ih]
      · right; simp [listLexLeb, charLt, h, Nat.lt_irrefl, ih]
    · right; simp [listLexLeb, charLt, h]

theorem listLexLeb_trans : ∀ a b c : List Char, listLexLeb a b = true →
    listLexLeb b c = true → listLexLeb a c = true
  | [], _, _, _, _ => rfl
  | _ :: _, [], _, h, _ => by simp [listLexLeb] at h
  | _ :: _, _ :: _, [], _, h => by simp [listLexLeb] at h
  | a :: as, b :: bs, c :: cs, h1, h2 => by
    simp only [listLexLeb, charLt, decide_eq_true_eq] at h1 h2 ⊢
    rcases Nat.lt_trichotomy a.val.toNat b.val.toNat with hab | hab | hab
    · rcases Nat.lt_trichotomy b.val.toNat c.val.toNat with hbc | hbc | hbc
      · rw [if_pos (by omega)]
      · rw [if_pos (by omega)]
      · rw [if_neg (by omega), if_pos hbc] at h2
        exact absurd h2 Bool.false_ne_true
    · rcases Nat.lt_trichotomy b.val.toNat c.val.toNat with hbc | hbc | hbc
      · rw [if_pos (by omega)]
      · rw [if_neg (by omega), if_neg (by omega)] at h1 h2 ⊢
        exact listLexLeb_trans as bs cs h1 h2
      · rw [if_neg (by omega), if_pos hbc] at h2
        exact absurd h2 Bool.false_ne_true
    · rw [if_neg (by omega), if_pos hab] at h1
      exact absurd h1 Bool.false_ne_true

instance : IsTotal String strLe :=
  ⟨fun a b => listLexLeb_total a.data b.data⟩

instance : IsTrans String strLe :=
  ⟨fun a b c => listLexLeb_trans a.data b.data c.data⟩

/- ### Lemmas: trimming is idempotent -/

theorem trimChars_eq_rdropWhile (l : List Char) :
    trimChars l = (l.dropWhile isWS).rdropWhile isWS := rfl

theorem dropWhile_eq_self_of_prefix {p : Char → Bool} {q m : List Char}
    (hq : q <+: m) (hm : m.dropWhile p = m) : q.dropWhile p = q := by
  cases q with
  | nil => rfl
  | cons a t =>
    obtain ⟨r, hr⟩ := hq
    subst hr
    have hpa : ¬ p a = true := by
      simpa using List.dropWhile_eq_self_iff.mp hm (by simp)
    exact List.dropWhile_cons_of_neg hpa

theorem trimChars_idem (l : List Char) :
    trimChars (trimChars l) = trimChars l := by
  rw [trimChars_eq_rdropWhile, trimChars_eq_rdropWhile,
    dropWhile_eq_self_of_prefix (List.rdropWhile_prefix isWS _)
      (List.dropWhile_idempotent isWS l),
    List.rdropWhile_idempotent]

theorem strTrim_idem (s : String) : strTrim (strTrim s) = strTrim s :=
  congrArg String.mk (trimChars_idem s.data)

theorem strTrim_empty : strTrim "" = "" := by decide

/- ### Lemmas: compaction -/

theorem mem_compactLoop (x : String) : ∀ (seen l : List String),
    x ∈ compactLoop seen l ↔ x ∉ seen ∧ x ≠ "" ∧ ∃ y ∈ l, strTrim y = x
  | seen, [] => by simp [compactLoop]
  | seen, id :: rest => by
    simp only [compactLoop]
    by_cases h1 : strTrim id = ""
    · rw [if_pos h1, mem_compactLoop x seen rest]
      constructor
      · rintro ⟨hs, hx, y, hy, hxy⟩
        exact ⟨hs, hx, y, List.mem_cons_of_mem _ hy, hxy⟩
      · rintro ⟨hs, hx, y, hy, hxy⟩
        rcases List.mem_cons.mp hy with rfl | hy2
        · exact absurd (hxy.symm.trans h1) hx
        · exact ⟨hs, hx, y, hy2, hxy⟩
    · rw [if_neg h1]
      by_cases h2 : strTrim id ∈ seen
      · rw [if_pos h2, mem_compactLoop x seen rest]
        constructor
        · rintro ⟨hs, hx, y, hy, hxy⟩
          exact ⟨hs, hx, y, List.mem_cons_of_mem _ hy, hxy⟩
        · rintro ⟨hs, hx, y, hy, hxy⟩
          rcases List.mem_cons.mp hy with rfl | hy2
          · exact absurd (hxy ▸ h2) hs
          · exact ⟨hs, hx, y, hy2, hxy⟩
      · rw [if_neg h2]
        rw [List.mem_cons, mem_compactLoop x (strTrim id :: seen) rest]
        constructor
        · rintro (rfl | ⟨hs, hx, y, hy, hxy⟩)
          · exact ⟨h2, h1, id, List.mem_cons_self _ _, rfl⟩
          · exact ⟨fun hmem => hs (List.mem_cons_of_mem _ hmem), hx, y,
              List.mem_cons_of_mem _ hy, hxy⟩
        · rintro ⟨hs, hx, y, hy, hxy⟩
          by_cases heq : x = strTrim id
          · exact Or.inl heq
          · rcases List.mem_cons.mp hy with rfl | hy2
            · exact absurd hxy.symm heq
            · exact Or.inr ⟨by
                rw [List.mem_cons]
                rintro (h | h)
                exacts [heq h, hs h], hx, y, hy2, hxy⟩

theorem nodup_compactLoop : ∀ (seen l : List String), (compactLoop seen l).Nodup
  | _, [] => List.nodup_nil
  | seen, id :: rest => by
    simp only [compactLoop]
    split
    · exact nodup_compactLoop seen rest
    · split
      · exact nodup_compactLoop seen rest
      · refine List.nodup_cons.mpr ⟨fun hmem => ?_, nodup_compactLoop _ rest⟩
        rw [mem_compactLoop] at hmem
        exact hmem.1 (List.mem_cons_self _ _)

theorem compact_sorted (l : List String) :
    (targetState.compact l).Sorted strLe := by
  cases l with
  | nil => simp [targetState.compact]
  | cons a t =>
    simpa [targetState.compact, sortStrings] using
      List.sorted_insertionSort strLe (compactLoop [] (a :: t))

theorem compact_nodup (l : List String) : (targetState.compact l).Nodup := by
  cases l with
  | nil => simp [targetState.compact]
  | cons a t =>
    simpa [targetState.compact, sortStrings] using
      (List.perm_insertionSort strLe (compactLoop [] (a :: t))).nodup_iff.mpr
        (nodup_compactLoop [] (a :: t))

theorem mem_compact (x : String) (l : List String) :
    x ∈ targetState.compact l ↔ x ≠ "" ∧ ∃ y ∈ l, strTrim y = x := by
  cases l with
  | nil => simp [targetState.compact]
  | cons a t =>
    show x ∈ sortStrings (compactLoop [] (a :: t)) ↔ _
    rw [sortStrings, List.mem_insertionSort, mem_compactLoop]
    simp

theorem compact_mem_fixed {x : String} {l : List String}
    (h : x ∈ targetState.compact l) : strTrim x = x ∧ x ≠ "" := by
  rw [mem_compact] at h
  obtain ⟨hx, y, _, hxy⟩ := h
  exact ⟨by rw [← hxy, strTrim_idem], hx⟩

/- ### Normalized pool states -/

/-- An idle sequence as `compact` leaves it: sorted, duplicate-free,
every entry trimmed and non-empty. -/
def idleNormalized (l : List String) : Prop :=
  l.Sorted strLe ∧ l.Nodup ∧ ∀ x ∈ l, strTrim x = x ∧ x ≠ ""

/-- A persisted pool file as the store itself writes it (or no file). -/
def fileNormalized : TabFile → Prop
  | none => True
  | some l => idleNormalized l

theorem compact_normalized (l : List String) :
    idleNormalized (targetState.compact l) :=
  ⟨compact_sorted l, compact_nodup l, fun _ hx => compact_mem_fixed hx⟩

theorem compactLoop_eq_self : ∀ (seen l : List String), l.Nodup →
    (∀ x ∈ l, strTrim x = x ∧ x ≠ "") → (∀ x ∈ l, x ∉ seen) →
    compactLoop seen l = l
  | _, [], _, _, _ => rfl
  | seen, id :: rest, hd, hf, hs => by
    have hid := hf id (List.mem_cons_self _ _)
    simp only [compactLoop, hid.1]
    rw [if_neg hid.2, if_neg (hs id (List.mem_cons_self _ _))]
    have htail : compactLoop (id :: seen) rest = rest := by
      refine compactLoop_eq_self (id :: seen) rest (List.nodup_cons.mp hd).2
        (fun x hx => hf x (List.mem_cons_of_mem _ hx)) (fun x hx => ?_)
      rw [List.mem_cons]
      rintro (rfl | hxs)
      · exact (List.nodup_cons.mp hd).1 hx
      · exact hs x (List.mem_cons_of_mem _ hx) hxs
    rw [htail]

theorem compact_of_normalized {l : List String} (h : idleNormalized l) :
    targetState.compact l = l := by
  cases l with
  | nil => rfl
  | cons a t =>
    show sortStrings (compactLoop [] (a :: t)) = a :: t
    rw [compactLoop_eq_self [] (a :: t) h.2.1 h.2.2 (by simp), sortStrings]
    exact h.1.insertionSort_eq

/- ### Lemmas: reading and checking in -/

theorem read_sorted (file : TabFile) : (targetStore.read file).Sorted strLe := by
  cases file with
  | none => exact List.sorted_nil
  | some l => exact compact_sorted l

theorem read_mem_fixed {x : String} {file : TabFile}
    (h : x ∈ targetStore.read file) : strTrim x = x ∧ x ≠ "" := by
  cases file with
  | none => simp [targetStore.read] at h
  | some l => exact compact_mem_fixed h

theorem read_of_normalized {l : List String} (h : idleNormalized l) :
    targetStore.read (some l) = l := compact_of_normalized h

theorem checkin_noop_of_mem {id : String} {file : TabFile}
    (h : id ∈ targetStore.read file) : targetStore.Checkin id file = file := by
  rw [targetStore.Checkin, if_neg (read_mem_fixed h).2, if_pos h]

theorem fileNormalized_checkin (id : String) {file : TabFile}
    (h : fileNormalized file) :
    fileNormalized (targetStore.Checkin id file) := by
  rw [targetStore.Checkin]
  split
  · exact h
  · split
    · exact h
    · exact compact_normalized _

theorem mem_read_checkin {x : String} (id : String) {file : TabFile}
    (h : x ∈ targetStore.read file) :
    x ∈ targetStore.read (targetStore.Checkin id file) := by
  obtain ⟨hfix, hne⟩ := read_mem_fixed h
  rw [targetStore.Checkin]
  split
  · exact h
  · split
    · exact h
    · show x ∈ targetState.compact _
      rw [mem_compact]
      refine ⟨hne, x, ?_, hfix⟩
      rw [mem_compact]
      exact ⟨hne, x, List.mem_append_left _ h, hfix⟩

theorem trim_mem_read_checkin {id : String} (file : TabFile)
    (h : strTrim id ≠ "") :
    strTrim id ∈ targetStore.read (targetStore.Checkin id file) := by
  rw [targetStore.Checkin]
  split
  · rename_i hid
    exact absurd (by rw [hid]; exact strTrim_empty) h
  · split
    · rename_i hmem
      rw [(read_mem_fixed hmem).1]
      exact hmem
    · show strTrim id ∈ targetState.compact _
      rw [mem_compact]
      refine ⟨h, strTrim id, ?_, strTrim_idem id⟩
      rw [mem_compact]
      exact ⟨h, id, List.mem_append_right _ (List.mem_cons_self _ _), rfl⟩

theorem fileNormalized_applyCheckins : ∀ (calls : List String) (file : TabFile),
    fileNormalized file → fileNormalized (applyCheckins calls file)
  | [], _, h => h
  | id :: rest, _, h =>
    fileNormalized_applyCheckins rest _ (fileNormalized_checkin id h)

theorem mem_read_applyCheckins {x : String} :
    ∀ (calls : List String) (file : TabFile), x ∈ targetStore.read file →
      x ∈ targetStore.read (applyCheckins calls file)
  | [], _, h => h
  | id :: rest, _, h =>
    mem_read_applyCheckins rest _ (mem_read_checkin id h)

theorem trim_mem_applyCheckins {id : String} :
    ∀ (calls : List String) (file : TabFile), id ∈ calls → strTrim id ≠ "" →
      strTrim id ∈ targetStore.read (applyCheckins calls file)
  | [], _, hmem, _ => absurd hmem (List.not_mem_nil _)
  | c :: rest, file, hmem, h => by
    rcases List.mem_cons.mp hmem with rfl | h2
    · exact mem_read_applyCheckins rest _ (trim_mem_read_checkin file h)
    · exact trim_mem_applyCheckins rest _ h2 h

/- ### Claim C1 -/

/-- Claim C1, counterexample to the claim as stated: from the persisted
pool state `["t1", "t1"]` (a legal state file with a duplicate), the
single duplicate check-in `Checkin "t1"` is a no-op, so the persisted
idle sequence afterwards still holds `"t1"` twice — it is not
duplicate-free. -/
theorem C1_duplicate_state_counterexample :
    targetStore.Checkin "t1" (some ["t1", "t1"]) = some ["t1", "t1"] ∧
    ¬ (["t1", "t1"] : List String).Nodup := by
  exact ⟨by decide, by decide⟩

/-- Claim C1 (amended): starting from a normalized persisted pool state
(one the store itself wrote, or an absent file), after any finite
sequence of `Checkin(id)` calls the persisted idle sequence is still
normalized: sorted lexicographically, duplicate-free (each id counted
exactly once), containing each distinct checked-in id whose trimmed form
is non-empty; and a duplicate check-in of an id already idle is a no-op
leaving the persisted state unchanged. -/
theorem C1_checkin_sequence_invariant (calls : List String) (file : TabFile)
    (h : fileNormalized file) :
    fileNormalized (applyCheckins calls file) ∧
    (∀ l, applyCheckins calls file = some l →
      l.Sorted strLe ∧ l.Nodup ∧ ∀ x ∈ l, l.count x = 1) ∧
    (∀ id ∈ calls, strTrim id ≠ "" →
      ∃ l, applyCheckins calls file = some l ∧ strTrim id ∈ l) ∧
    (∀ id ∈ targetStore.read file, targetStore.Checkin id file = file) := by
  have hfin := fileNormalized_applyCheckins calls file h
  refine ⟨hfin, ?_, ?_, fun id hid => checkin_noop_of_mem hid⟩
  · intro l hl
    rw [hl] at hfin
    have hfin2 : idleNormalized l := hfin
    exact ⟨hfin2.1, hfin2.2.1,
      fun x hx => List.count_eq_one_of_mem hfin2.2.1 hx⟩
  · intro id hid hne
    have hmem := trim_mem_applyCheckins calls file hid hne
    cases hfile : applyCheckins calls file with
    | none => rw [hfile] at hmem; simp [targetStore.read] at hmem
    | some l =>
      rw [hfile] at hmem hfin
      rw [read_of_normalized hfin] at hmem
      exact ⟨l, rfl, hmem⟩

/-- Claim C1, witness: one `Checkin "t1"` on an absent state file leaves
a persisted idle sequence containing `"t1"`. -/
theorem C1_checkin_sequence_invariant_witness :
    ∃ l, applyCheckins ["t1"] none = some l ∧ strTrim "t1" ∈ l :=
  (C1_checkin_sequence_invariant ["t1"] none (by trivial)).2.2.1 "t1"
    (by decide) (by decide)

/- ### Claim C2 -/

/-- Claim C2: on a pool whose normalized idle set is non-empty,
`Checkout` removes and returns the lexicographically smallest idle
identifier after normalization; in particular from the persisted idle
set `["t2", "t1", "t1"]` the loaded state normalizes to `["t1", "t2"]`,
`Checkout` returns `"t1"` and persists `["t2"]`. -/
theorem C2_checkout_takes_min (file : TabFile)
    (h : targetStore.read file ≠ []) :
    (∃ rest, targetStore.read file = (targetStore.Checkout file).1 :: rest ∧
      (targetStore.Checkout file).2 = some rest) ∧
    (∀ x ∈ targetStore.read file, strLe (targetStore.Checkout file).1 x) ∧
    targetStore.read (some ["t2", "t1", "t1"]) = ["t1", "t2"] ∧
    targetStore.Checkout (some ["t2", "t1", "t1"]) = ("t1", some ["t2"]) := by
  refine ⟨?_, ?_, by decide, by decide⟩
  · rw [targetStore.Checkout]
    cases hread : targetStore.read file with
    | nil => exact absurd hread h
    | cons a rest => exact ⟨rest, rfl, rfl⟩
  · intro x hx
    have hsorted := read_sorted file
    rw [targetStore.Checkout]
    cases hread : targetStore.read file with
    | nil => rw [hread] at hx; exact absurd hx (List.not_mem_nil x)
    | cons a rest =>
      rw [hread] at hx hsorted
      rcases List.mem_cons.mp hx with rfl | hx2
      · exact strLe_refl x
      · exact List.rel_of_sorted_cons hsorted x hx2

/-- Claim C2, witness: the claim's own example pool. -/
theorem C2_checkout_takes_min_witness :
    ∃ rest, targetStore.read (some ["t2", "t1", "t1"]) =
      (targetStore.Checkout (some ["t2", "t1", "t1"])).1 :: rest ∧
      (targetStore.Checkout (some ["t2", "t1", "t1"])).2 = some rest :=
  (C2_checkout_takes_min (some ["t2", "t1", "t1"]) (by decide)).1

/- ### Claim C7 -/

/-- Claim C7: on a pool whose persisted idle set is empty — including an
absent state file, e.g. after `Clear` — `Checkout` returns the empty
string on the non-error path, leaving the persisted state unchanged; an
empty pool is never reported as an error (the error returns of the Go
code arise only from lock, read or write failures, which are outside
this embedding). -/
theorem C7_empty_checkout_not_error (file : TabFile) :
    (targetStore.read file = [] → targetStore.Checkout file = ("", file)) ∧
    targetStore.Checkout (targetStore.Clear file) = ("", none) := by
  constructor
  · intro h
    rw [targetStore.Checkout, h]
  · rfl

/-- Claim C7, witness: a present-but-empty state file and a cleared
pool. -/
theorem C7_empty_checkout_not_error_witness :
    targetStore.Checkout (some []) = ("", some []) ∧
    targetStore.Checkout (targetStore.Clear (some [])) = ("", none) :=
  ⟨(C7_empty_checkout_not_error (some [])).1 (by decide),
   (C7_empty_checkout_not_error (some [])).2⟩

/- ### Claims C3 and C10 -/

theorem mapGet_mapSet (k v : String) : ∀ m : List (String × String),
    mapGet (mapSet m k v) k = some v
  | [] => by simp [mapSet, mapGet]
  | (k2, v2) :: rest => by
    by_cases h : k2 = k
    · rw [mapSet, if_pos h, mapGet, if_pos h]
    · rw [mapSet, if_neg h, mapGet, if_neg h]
      exact mapGet_mapSet k v rest

/-- Claim C3: for a non-nil store and non-empty host and endpoint URL,
`Remember(host, url)` followed by `Get(host)` on the same persisted
cache returns exactly that URL with `found = true`. -/
theorem C3_remember_get_roundtrip (host wsURL : String) (file : CacheFile)
    (hh : host ≠ "") (hw : wsURL ≠ "") :
    cdpEndpointStore.Get false host
      (cdpEndpointStore.Remember false host wsURL file) = (wsURL, true) := by
  rw [cdpEndpointStore.Remember,
    if_neg (by simp [hh, hw] : ¬(false = true ∨ host = "" ∨ wsURL = ""))]
  rw [cdpEndpointStore.Get, if_neg (by simp)]
  rw [show cdpEndpointStore.read
      (some (mapSet (cdpEndpointStore.read file) host wsURL)) =
      mapSet (cdpEndpointStore.read file) host wsURL from rfl]
  rw [mapGet_mapSet]

/-- Claim C3, witness. -/
theorem C3_remember_get_roundtrip_witness :
    cdpEndpointStore.Get false "127.0.0.1:9222"
      (cdpEndpointStore.Remember false "127.0.0.1:9222"
        "ws://127.0.0.1:9222/devtools/browser/abc" none) =
      ("ws://127.0.0.1:9222/devtools/browser/abc", true) :=
  C3_remember_get_roundtrip "127.0.0.1:9222"
    "ws://127.0.0.1:9222/devtools/browser/abc" none (by decide) (by decide)

/-- Claim C10: `Remember` with an empty host, an empty URL, or on a nil
store returns through the guard without reading or writing — the
persisted cache file is left completely unchanged (the guard also makes
the returned error nil). -/
theorem C10_remember_guard_noop (snil : Bool) (host wsURL : String)
    (file : CacheFile) (h : snil = true ∨ host = "" ∨ wsURL = "") :
    cdpEndpointStore.Remember snil host wsURL file = file := by
  rw [cdpEndpointStore.Remember, if_pos h]

/-- Claim C10, witness: an empty host leaves a populated cache file
untouched. -/
theorem C10_remember_guard_noop_witness :
    cdpEndpointStore.Remember false "" "ws://x" (some [("a", "b")]) =
      some [("a", "b")] :=
  C10_remember_guard_noop false "" "ws://x" (some [("a", "b")])
    (Or.inr (Or.inl rfl))

/- ### Claim C4 -/

/-- Claim C4: whenever the normalized URL's path marks a direct
pre-resolved endpoint reference (it contains "/devtools/browser/"),
`resolveCDPEndpoint` returns that normalized URL and its host key with
no error, and the persisted cache afterwards equals the input cache —
the result does not consult the cache contents or the probe outcome. -/
theorem C4_direct_endpoint_short_circuit (raw : String) (u : GoURL)
    (host : String) (storeNil : Bool) (cacheFile : CacheFile)
    (probe : HTTPOutcome) (hn : normalizeCDP raw = some (u, host))
    (hp : strContains u.path "/devtools/browser/" = true) :
    resolveCDPEndpoint raw storeNil cacheFile probe =
      ⟨u.toStr, host, false, cacheFile⟩ := by
  rw [resolveCDPEndpoint, hn]
  simp only [hp, if_pos]

/-- Claim C4, witness: a browser websocket URL passes through unchanged
whatever the cache holds and however the probe would answer. -/
theorem C4_direct_endpoint_short_circuit_witness :
    resolveCDPEndpoint "ws://127.0.0.1:9222/devtools/browser/abc" false
      (some [("127.0.0.1:9222", "stale")]) .reqError =
      ⟨"ws://127.0.0.1:9222/devtools/browser/abc", "127.0.0.1:9222", false,
        some [("127.0.0.1:9222", "stale")]⟩ :=
  C4_direct_endpoint_short_circuit "ws://127.0.0.1:9222/devtools/browser/abc"
    ⟨"ws", "127.0.0.1:9222", "/devtools/browser/abc"⟩ "127.0.0.1:9222" false
    (some [("127.0.0.1:9222", "stale")]) .reqError (by decide) (by decide)

/- ### Claim C5 -/

/-- Claim C5: the probe fails exactly on a request error, a non-200
status, or a missing/undecodable `webSocketDebuggerUrl` field; and on
any resolution whose probe fails (after a cache miss), `Resolve` returns
a non-nil error together with the normalized input address as the
best-known fallback URL and the host key — not empty values — leaving
the cache unchanged. -/
theorem C5_probe_failure_fallback :
    (fetchWebsocketDebuggerURL .reqError = .error () ∧
     (∀ st ws, st ≠ 200 →
        fetchWebsocketDebuggerURL (.response st ws) = .error ()) ∧
     (∀ st, fetchWebsocketDebuggerURL (.response st none) = .error ()) ∧
     (∀ st, fetchWebsocketDebuggerURL (.response st (some "")) = .error ())) ∧
    (∀ raw u host cacheFile probe,
      normalizeCDP raw = some (u, host) →
      strContains u.path "/devtools/browser/" = false →
      mapGet (cdpEndpointStore.read cacheFile) host = none →
      fetchWebsocketDebuggerURL probe = .error () →
      resolveCDPEndpoint raw false cacheFile probe =
        ⟨u.toStr, host, true, cacheFile⟩) := by
  refine ⟨⟨rfl, ?_, ?_, ?_⟩, ?_⟩
  · intro st ws h
    show (if st ≠ 200 then Except.error () else
      match ws with
      | none => Except.error ()
      | some w => if w = "" then Except.error () else Except.ok w) =
      Except.error ()
    rw [if_pos h]
  · intro st
    show (if st ≠ 200 then Except.error () else Except.error ()) =
      (Except.error () : Except Unit String)
    exact ite_self _
  · intro st
    show (if st ≠ 200 then Except.error () else Except.error ()) =
      (Except.error () : Except Unit String)
    exact ite_self _
  · intro raw u host cacheFile probe hn hmark hlook hfail
    rw [resolveCDPEndpoint, hn]
    simp only [hmark, Bool.false_eq_true, if_false, hlook, hfail]

/-- Claim C5, witness: an unreachable probe on a fresh cache falls back
to the normalized address with an error. -/
theorem C5_probe_failure_fallback_witness :
    resolveCDPEndpoint "127.0.0.1" false none .reqError =
      ⟨"ws://127.0.0.1:9222", "127.0.0.1:9222", true, none⟩ :=
  C5_probe_failure_fallback.2 "127.0.0.1" ⟨"ws", "127.0.0.1:9222", ""⟩
    "127.0.0.1:9222" none .reqError (by decide) (by decide) rfl rfl

/- ### Claim C6 -/

/-- Claim C6: resolution normalizes its input by substituting the
well-known local default for an empty address, prefixing the ws scheme
when no scheme separator is present, and appending the default port 9222
when the host has none; in particular `"127.0.0.1"` normalizes to
`ws://127.0.0.1:9222` with host key `127.0.0.1:9222`. -/
theorem C6_normalization_rules :
    normAddr "" = "ws://127.0.0.1:9222" ∧
    (∀ raw, raw ≠ "" → strContains raw "://" = false →
      normAddr raw = "ws://" ++ raw) ∧
    (∀ u, splitHostPortOk u.host = false →
      normHostPort u = ({ u with host := joinHostPort u.host "9222" },
        joinHostPort u.host "9222")) ∧
    normalizeCDP "127.0.0.1" =
      some (⟨"ws", "127.0.0.1:9222", ""⟩, "127.0.0.1:9222") := by
  refine ⟨by decide, ?_, ?_, by decide⟩
  · intro raw h1 h2
    simp only [normAddr, if_neg h1, h2, Bool.false_eq_true, if_false]
  · intro u hsp
    rw [normHostPort, if_neg (fun hc => Bool.false_ne_true (hsp.symm.trans hc))]

/-- Claim C6, witness: a bare host gets the ws scheme prefixed. -/
theorem C6_normalization_rules_witness :
    normAddr "127.0.0.1" = "ws://" ++ "127.0.0.1" :=
  C6_normalization_rules.2.1 "127.0.0.1" (by decide) (by decide)

/- ### Claim C8 -/

/-- Claim C8: after `Add(s)`, `Get(s.id)` returns `(s, true)`; after a
subsequent `Remove(s.id)`, `Get(s.id)` reports not-found; and `Remove`
deletes only its registry entry — every other entry survives and no
session's request channel is closed by it. -/
theorem C8_registry_add_get_remove (w : SessionsWorld) (s : Session)
    (id : SessionId) :
    Sessions.Get (Sessions.Add w s) s.id = (some s, true) ∧
    Sessions.Get (Sessions.Remove (Sessions.Add w s) s.id) s.id =
      (none, false) ∧
    (∀ j, j ≠ id → (Sessions.Remove w id).table j = w.table j) ∧
    (Sessions.Remove w id).creqClosed = w.creqClosed := by
  refine ⟨?_, ?_, ?_, rfl⟩
  · simp [Sessions.Get, Sessions.Add]
  · simp [Sessions.Get, Sessions.Remove]
  · intro j hj
    simp [Sessions.Remove, hj]

/- ### Claim C9 -/

theorem crashRun_write_dest (data : String) (fs fin : FsState)
    (h : crashRun [.writeFile .tmp data, .rename .tmp .dest] fs fin) :
    fin .dest = fs .dest ∨ fin .dest = some data := by
  cases h with
  | stop => exact Or.inl rfl
  | interruptWrite p d rest fs junk =>
    left
    simp [FsState.set]
  | step i rest fs out h1 =>
    cases h1 with
    | stop =>
      left
      simp [runInstr, FsState.set]
    | step i2 rest2 fs2 out2 h2 =>
      cases h2 with
      | stop =>
        right
        simp [runInstr, FsState.set]

/-- Claim C9: both stores persist by writing the full new encoding to
the temporary path and then renaming it over the destination; under the
crash model (stop anywhere, an interrupted write corrupts only its own
target path, rename is atomic) the destination always holds either the
complete old content or the complete new content. -/
theorem C9_atomic_write_crash_safety (data : String) (fs fin : FsState) :
    (crashRun (targetStore.write data) fs fin →
      fin .dest = fs .dest ∨ fin .dest = some data) ∧
    (crashRun (cdpEndpointStore.write data) fs fin →
      fin .dest = fs .dest ∨ fin .dest = some data) :=
  ⟨fun h => crashRun_write_dest data fs fin h,
   fun h => crashRun_write_dest data fs fin h⟩

/-- Claim C9, witness: a crash in the middle of writing the temp file
leaves the old destination intact. -/
theorem C9_atomic_write_crash_safety_witness :
    (oldFs.set .tmp (some "ju")) .dest = oldFs .dest ∨
      (oldFs.set .tmp (some "ju")) .dest = some "new" :=
  (C9_atomic_write_crash_safety "new" oldFs (oldFs.set .tmp (some "ju"))).1
    (crashRun.interruptWrite .tmp "new" [.rename .tmp .dest] oldFs
      (some "ju"))

